import Mathlib

/-!
Verification of the toy-machine core (`src/toymachine/machine.py` and the older
bit-list variant `src/src/toymachine/machine.py`).

Bit strings are modelled as `List Bool`, most-significant bit first; a Python
value string `"0b" ++ bits` is represented by the list of its bits.  Fallible
operations return `Except Err`.  All definitions are executable.
-/

set_option maxHeartbeats 1000000

/-- WORD_SIZE from machine.py. -/
def WORD_SIZE : Nat := 32

/-- REGISTER_BITS from machine.py. -/
def REGISTER_BITS : Nat := 3

/-- MEM_ADDR_BITS from machine.py. -/
def MEM_ADDR_BITS : Nat := 10

/-- OPCODE_BITS from machine.py. -/
def OPCODE_BITS : Nat := 6

/-- Integer value of a bit string, most significant bit first: `int(s, 2)`
(with `int("", 2)` read as 0, matching the spec's "empty string => 0"). -/
def bitsToNat (l : List Bool) : Nat :=
  l.foldl (fun a b => 2 * a + (if b then 1 else 0)) 0

/-- Little-endian binary digits of `n`, computed with explicit fuel so the
definition is structural and reduces in the kernel; empty for `n = 0`. -/
def natToBitsAux : Nat → Nat → List Bool
  | 0, _ => []
  | fuel + 1, n => if n = 0 then [] else decide (n % 2 = 1) :: natToBitsAux fuel (n / 2)

/-- Python `bin(n)` without the `0b` prefix: minimal binary expansion,
most significant bit first, a single zero digit for `n = 0`. -/
def natToBits (n : Nat) : List Bool :=
  if n = 0 then [false] else (natToBitsAux n n).reverse

/-- Python slice `l[start:]` for an arbitrary (possibly negative) start. -/
def pySlice (l : List Bool) (start : Int) : List Bool :=
  if start < 0 then l.drop (l.length - (-start).toNat) else l.drop start.toNat

/-- Embeds `_split_args` from machine.py: first component is `args[:pos]`, second is
`args[-second_bits:]`, with the default `second_bits = -1` replaced by
`WORD_SIZE - OPCODE_BITS - pos` when `args` has single-word operand length and
by `WORD_SIZE` otherwise. -/
def _split_args (args : List Bool) (pos : Nat) (second_bits : Int := -1) :
    List Bool × List Bool :=
  let sb : Int :=
    if second_bits = -1 then
      if args.length = WORD_SIZE - OPCODE_BITS then
        (WORD_SIZE : Int) - (OPCODE_BITS : Int) - (pos : Int)
      else (WORD_SIZE : Int)
    else second_bits
  (args.take pos, pySlice args (-sb))

/-- Error kinds raised by machine.py (the spec's names in §7; `unknownOpcode`
is the KeyError raised by the dispatch dict lookup). -/
inductive Err
  | addressNotFound
  | registerNotFound
  | valueTooLong
  | malformedInstruction
  | unknownOpcode
deriving DecidableEq

/-- The five registers created by `CPU.create_registers`, in dict order. -/
inductive Reg
  | AC
  | DR
  | CR
  | PC
  | IR
deriving DecidableEq

/-- The ordered register key list, `list(self.registers.keys())`. -/
def regList : List Reg := [Reg.AC, Reg.DR, Reg.CR, Reg.PC, Reg.IR]

/-- The `Binary` TypeVar of machine.py: a value is either a bit string or an
integer. -/
inductive Binary
  | b (s : List Bool)
  | d (n : Nat)

/-- The normalization both store routines perform: `if isinstance(value, int):
value = bin(value)`. -/
def binEncode : Binary → List Bool
  | .b s => s
  | .d n => natToBits n

/-- Memory from machine.py: `blocks` cells created by `create_memory`; the
dict `memory_blocks` is modelled as a total function whose meaningful domain
is `[0, blocks)`. -/
structure Memory where
  blocks : Nat
  cells : Nat → List Bool

/-- Dict assignment `memory_blocks[address] = v`. -/
def updateCell (f : Nat → List Bool) (address : Nat) (v : List Bool) :
    Nat → List Bool :=
  fun a => if a = address then v else f a

/-- Embeds `Memory.load` from machine.py (bit-string return; the `"d"` return mode is
`bitsToNat` of this result). -/
def Memory.load (m : Memory) (address : Nat) : Except Err (List Bool) :=
  if address < m.blocks then .ok (m.cells address) else .error .addressNotFound

/-- Embeds `Memory.store` from machine.py: address check, int-to-binary conversion,
word-size check, then in-place cell replacement. -/
def Memory.store (m : Memory) (address : Nat) (value : Binary) :
    Except Err Memory :=
  if address < m.blocks then
    if (binEncode value).length > WORD_SIZE then .error .valueTooLong
    else .ok { m with cells := updateCell m.cells address (binEncode value) }
  else .error .addressNotFound

/-- The machine state: CPU registers plus the memory the CPU holds. -/
structure MachineState where
  regs : Reg → List Bool
  mem : Memory

/-- Dict assignment `registers[regid] = v`. -/
def updateReg (f : Reg → List Bool) (r : Reg) (v : List Bool) :
    Reg → List Bool :=
  fun x => if x = r then v else f x

/-- Embeds `CPU.store` from machine.py.  The register-existence check is represented
by the `Reg` index type (the dict's key set is exactly `regList`). -/
def CPU.store (s : MachineState) (regid : Reg) (value : Binary) :
    Except Err MachineState :=
  if (binEncode value).length > WORD_SIZE then .error .valueTooLong
  else .ok { s with regs := updateReg s.regs regid (binEncode value) }

/-- Embeds `CPU.store_in_memory` from machine.py. -/
def store_in_memory (s : MachineState) (address : Nat) (value : Binary) :
    Except Err MachineState :=
  match s.mem.store address value with
  | .error e => .error e
  | .ok m => .ok { s with mem := m }

/-- Embeds `CPU.load_next_instruction` from machine.py: read PC in decimal, fetch
that memory word into IR, then store PC + 1. -/
def load_next_instruction (s : MachineState) : Except Err MachineState :=
  match s.mem.load (bitsToNat (s.regs .PC)) with
  | .error e => .error e
  | .ok next_instruction =>
    match CPU.store s .IR (.b next_instruction) with
    | .error e => .error e
    | .ok s1 => CPU.store s1 .PC (.d (bitsToNat (s.regs .PC) + 1))

/-- Embeds `CPU.analyze_instruction` from machine.py: reject an IR that is not
exactly one word long, then split off the 6 opcode bits. -/
def analyze_instruction (s : MachineState) : Except Err (Nat × List Bool) :=
  if (s.regs .IR).length ≠ WORD_SIZE then .error .malformedInstruction
  else .ok (bitsToNat ((s.regs .IR).take OPCODE_BITS), (s.regs .IR).drop OPCODE_BITS)

/-- The continuation-word operand treatment in
`CPU.execute_current_instruction`: `remaining_args[remaining_args.find("1"):]`.
Python `find` yields -1 when no `1` occurs, and slicing from -1 keeps exactly
the final bit. -/
def contStrip (l : List Bool) : List Bool :=
  let i := l.findIdx (fun b => b)
  if i = l.length then l.drop (l.length - 1) else l.drop i

/-- Embeds `CPU._to_register` from machine.py: positional index into the register
key list; an out-of-range index is the spec's RegisterNotFound. -/
def _to_register (addr : List Bool) : Except Err Reg :=
  match regList.get? (bitsToNat addr) with
  | some r => .ok r
  | none => .error .registerNotFound

/-- Embeds `CPU.move_reg_const` from machine.py. -/
def move_reg_const (s : MachineState) (args : List Bool) :
    Except Err MachineState :=
  match _to_register (_split_args args REGISTER_BITS).1 with
  | .error e => .error e
  | .ok reg => CPU.store s reg (.d (bitsToNat (_split_args args REGISTER_BITS).2))

/-- Embeds `CPU.move_reg_mem` from machine.py. -/
def move_reg_mem (s : MachineState) (args : List Bool) :
    Except Err MachineState :=
  match _to_register (_split_args args REGISTER_BITS (MEM_ADDR_BITS : Int)).1 with
  | .error e => .error e
  | .ok reg =>
    match s.mem.load (bitsToNat (_split_args args REGISTER_BITS (MEM_ADDR_BITS : Int)).2) with
    | .error e => .error e
    | .ok value => CPU.store s reg (.b value)

/-- Embeds `CPU.move_mem_const` from machine.py (the constant bits are stored raw). -/
def move_mem_const (s : MachineState) (args : List Bool) :
    Except Err MachineState :=
  store_in_memory s (bitsToNat (_split_args args MEM_ADDR_BITS).1)
    (.b (_split_args args MEM_ADDR_BITS).2)

/-- Embeds `CPU.move_mem_mem` from machine.py. -/
def move_mem_mem (s : MachineState) (args : List Bool) :
    Except Err MachineState :=
  match s.mem.load (bitsToNat (_split_args args MEM_ADDR_BITS (MEM_ADDR_BITS : Int)).2) with
  | .error e => .error e
  | .ok value =>
    store_in_memory s (bitsToNat (_split_args args MEM_ADDR_BITS (MEM_ADDR_BITS : Int)).1) (.b value)

/-- Embeds `CPU.move_mem_reg` from machine.py. -/
def move_mem_reg (s : MachineState) (args : List Bool) :
    Except Err MachineState :=
  match _to_register (_split_args args MEM_ADDR_BITS (REGISTER_BITS : Int)).2 with
  | .error e => .error e
  | .ok reg =>
    store_in_memory s (bitsToNat (_split_args args MEM_ADDR_BITS (REGISTER_BITS : Int)).1)
      (.b (s.regs reg))

/-- Embeds `CPU.add_reg_const` from machine.py: exact integer sum, converted by the
register store. -/
def add_reg_const (s : MachineState) (args : List Bool) :
    Except Err MachineState :=
  match _to_register (_split_args args REGISTER_BITS).1 with
  | .error e => .error e
  | .ok reg =>
    CPU.store s reg (.d (bitsToNat (s.regs reg) + bitsToNat (_split_args args REGISTER_BITS).2))

/-- Embeds `CPU.add_reg_mem` from machine.py. -/
def add_reg_mem (s : MachineState) (args : List Bool) :
    Except Err MachineState :=
  match _to_register (_split_args args REGISTER_BITS (MEM_ADDR_BITS : Int)).1 with
  | .error e => .error e
  | .ok reg =>
    match s.mem.load (bitsToNat (_split_args args REGISTER_BITS (MEM_ADDR_BITS : Int)).2) with
    | .error e => .error e
    | .ok mval => CPU.store s reg (.d (bitsToNat mval + bitsToNat (s.regs reg)))

/-- Embeds `CPU.add_mem_reg` from machine.py: the destination address is the same
first sub-field used for the read. -/
def add_mem_reg (s : MachineState) (args : List Bool) :
    Except Err MachineState :=
  match _to_register (_split_args args MEM_ADDR_BITS (REGISTER_BITS : Int)).2 with
  | .error e => .error e
  | .ok reg =>
    match s.mem.load (bitsToNat (_split_args args MEM_ADDR_BITS (REGISTER_BITS : Int)).1) with
    | .error e => .error e
    | .ok mval =>
      store_in_memory s (bitsToNat (_split_args args MEM_ADDR_BITS (REGISTER_BITS : Int)).1)
        (.d (bitsToNat mval + bitsToNat (s.regs reg)))

/-- Embeds `CPU.create_instruction_set` from machine.py: the dict of opcodes 0..7. -/
def instruction_set :
    Nat → Option (MachineState → List Bool → Except Err MachineState)
  | 0 => some move_reg_const
  | 1 => some move_reg_mem
  | 2 => some move_mem_const
  | 3 => some move_mem_mem
  | 4 => some move_mem_reg
  | 5 => some add_reg_const
  | 6 => some add_reg_mem
  | 7 => some add_mem_reg
  | _ => none

/-- The dict lookup `self.instruction_set[func]` followed by the call
`func(args)`; a missing key is Python's KeyError. -/
def dispatchOp (op : Nat) (s : MachineState) (args : List Bool) :
    Except Err MachineState :=
  match instruction_set op with
  | some f => f s args
  | none => .error .unknownOpcode

/-- Embeds `CPU.execute_current_instruction` from machine.py, including the
multi-word continuation branch for the reserved opcode 63. -/
def execute_current_instruction (s : MachineState) : Except Err MachineState :=
  match analyze_instruction s with
  | .error e => .error e
  | .ok fa =>
    if fa.1 = 63 then
      match load_next_instruction s with
      | .error e => .error e
      | .ok s2 =>
        match analyze_instruction s2 with
        | .error e => .error e
        | .ok fa2 => dispatchOp fa2.1 s2 (fa.2 ++ contStrip fa2.2)
    else
      dispatchOp fa.1 s fa.2

/-- One blank-line command of main.py: fetch then execute. -/
def stepMachine (s : MachineState) : Except Err MachineState :=
  match load_next_instruction s with
  | .error e => .error e
  | .ok s1 => execute_current_instruction s1

/-- The enumerated store loop of `Machine.load_program`. -/
def store_program_lines : MachineState → Nat → List (List Bool) → Except Err MachineState
  | s, _, [] => .ok s
  | s, i, line :: rest =>
    match store_in_memory s i (.b line) with
    | .error e => .error e
    | .ok s1 => store_program_lines s1 (i + 1) rest

/-- Embeds `Machine.load_program` from machine.py: reset PC to 0 then store each
line at successive addresses. -/
def load_program (s : MachineState) (program : List (List Bool)) :
    Except Err MachineState :=
  match CPU.store s .PC (.d 0) with
  | .error e => .error e
  | .ok s0 => store_program_lines s0 0 program

/-- Embeds `Machine.__init__`: `Memory(blocks=8)` and fresh registers, every cell
and register holding the one-bit string `"0b0"`. -/
def initMachine : MachineState :=
  { regs := fun _ => [false]
    mem := { blocks := 8, cells := fun _ => [false] } }

/-- Well-formedness: every register and memory cell holds at most one word. -/
def WF (s : MachineState) : Prop :=
  (∀ r, (s.regs r).length ≤ WORD_SIZE) ∧ (∀ a, (s.mem.cells a).length ≤ WORD_SIZE)

/-- Whether dispatching opcode `op` on operand field `args` writes to a
register whose positional index is 3 (the PC slot): true exactly for the four
register-writing opcodes when their register sub-field decodes to 3. -/
def dispatch_writes_PC (op : Nat) (args : List Bool) : Bool :=
  if op = 0 ∨ op = 1 ∨ op = 5 ∨ op = 6 then
    decide (bitsToNat (args.take REGISTER_BITS) = 3)
  else false

/-- Whether the instruction about to be executed on `s` (after the fetch that
`stepMachine` performs first) writes the PC register, following the decode
logic of `execute_current_instruction`. -/
def step_writes_PC (s : MachineState) : Bool :=
  match load_next_instruction s with
  | .error _ => false
  | .ok s1 =>
    match analyze_instruction s1 with
    | .error _ => false
    | .ok fa =>
      if fa.1 = 63 then
        match load_next_instruction s1 with
        | .error _ => false
        | .ok s2 =>
          match analyze_instruction s2 with
          | .error _ => false
          | .ok fa2 => dispatch_writes_PC fa2.1 (fa.2 ++ contStrip fa2.2)
      else dispatch_writes_PC fa.1 fa.2

/-- Modelled from the spec (§4.4 step 3(b)) for refinement comparison: strip
the leading run of zero bits up to but not including the first 1 bit; when no
1 bit exists no bit lies strictly before it, so nothing is removed. -/
def specStrip (l : List Bool) : List Bool :=
  if l.contains true then l.drop (l.findIdx (fun b => b)) else l

/-- Modelled from the spec (§4.4) for refinement comparison: the continuation
protocol exactly as the claim states it, differing from
`execute_current_instruction` only in using `specStrip`. -/
def spec_execute_current_instruction (s : MachineState) :
    Except Err MachineState :=
  match analyze_instruction s with
  | .error e => .error e
  | .ok fa =>
    if fa.1 = 63 then
      match load_next_instruction s with
      | .error e => .error e
      | .ok s2 =>
        match analyze_instruction s2 with
        | .error e => .error e
        | .ok fa2 => dispatchOp fa2.1 s2 (fa.2 ++ specStrip fa2.2)
    else
      dispatchOp fa.1 s fa.2

/-- Embeds `bin2dec` from the older bit-list machine (src/src/toymachine/machine.py):
sum of `bit * 2 ^ pos` over the enumerated reversed digit list. -/
def bin2dec (value : List Nat) : Nat :=
  (value.reverse.enum).foldl (fun val pb => val + pb.2 * 2 ^ pb.1) 0

/-- The digit-collecting while loop of `dec2bin`, little-endian, with fuel. -/
def dec2binAux : Nat → Nat → List Nat
  | 0, _ => []
  | fuel + 1, value => if value = 0 then [] else value % 2 :: dec2binAux fuel (value / 2)

/-- Embeds `dec2bin` from the older bit-list machine: little-endian digits, padded
with zeros up to `bits`, then reversed to most-significant-first order. -/
def dec2bin (value : Nat) (bits : Nat) : List Nat :=
  let val := dec2binAux value value
  (val ++ List.replicate (bits - val.length) 0).reverse

/-- Little-endian value of a digit list (proof helper for `bin2dec`). -/
def lsbVal (l : List Nat) : Nat :=
  l.foldr (fun b acc => b + 2 * acc) 0

/-- Operand bits of the reserved first word in the claim C1 scenario:
register sub-field 000 and a single trailing 1 bit. -/
def ex1args1 : List Bool := List.replicate 23 false ++ [false, false, true]

/-- The continuation word of the claim C1 scenario: opcode 0
(move-register-constant) and an all-zero operand field. -/
def ex1w2 : List Bool := List.replicate 32 false

/-- A machine state whose IR holds a reserved-opcode word with operand bits
`ex1args1`, whose PC is 0, and whose next memory word is `ex1w2`. -/
def ex1 : MachineState :=
  { regs := fun r => if r = Reg.IR then List.replicate 6 true ++ ex1args1 else [false]
    mem := { blocks := 8, cells := fun a => if a = 0 then ex1w2 else [false] } }

/-- A move-register-constant word whose register sub-field is positional
index 3 (the PC slot) and whose constant is 7. -/
def ex4word : List Bool :=
  List.replicate 6 false ++ [false, true, true] ++
    (List.replicate 20 false ++ [true, true, true])

/-- A fresh-style machine whose first instruction is `ex4word`. -/
def ex4 : MachineState :=
  { regs := fun _ => [false]
    mem := { blocks := 8, cells := fun a => if a = 0 then ex4word else [false] } }

/-- A move-register-constant word writing the constant 42 to register AC. -/
def exC4w : List Bool :=
  List.replicate 6 false ++ [false, false, false] ++
    (List.replicate 17 false ++ [true, false, true, false, true, false])

/-- A fresh-style machine whose first instruction is `exC4w`. -/
def exC4 : MachineState :=
  { regs := fun _ => [false]
    mem := { blocks := 8, cells := fun a => if a = 0 then exC4w else [false] } }

/-- The state reached by one full step of `exC4`. -/
def exC4sF : MachineState :=
  { regs := updateReg (updateReg (updateReg exC4.regs Reg.IR exC4w) Reg.PC (natToBits 1))
      Reg.AC (natToBits 42)
    mem := exC4.mem }

/-- The state after the first fetch on a freshly constructed machine. -/
def initFetched : MachineState :=
  { regs := updateReg (updateReg initMachine.regs Reg.IR [false]) Reg.PC (natToBits 1)
    mem := initMachine.mem }

/-- A 26-bit operand field selecting register AC and encoding the constant 42. -/
def exC7args : List Bool :=
  List.replicate 3 false ++ (List.replicate 17 false ++ [true, false, true, false, true, false])

/-- A machine state with AC holding 5 decimally and memory address 0 holding
3 decimally, as left by a move-memory-constant of the bits `11`. -/
def exC8 : MachineState :=
  { regs := fun r => if r = Reg.AC then [true, false, true] else [false]
    mem := { blocks := 8, cells := fun a => if a = 0 then [true, true] else [false] } }

/-- A machine state whose AC holds the all-ones word (decimal 2 ^ 32 - 1). -/
def exC10 : MachineState :=
  { regs := fun r => if r = Reg.AC then List.replicate 32 true else [false]
    mem := { blocks := 8, cells := fun _ => [false] } }

/-- A 26-bit operand field selecting register AC and encoding the constant 1. -/
def exC10args : List Bool := List.replicate 25 false ++ [true]

/-! ### Arithmetic facts about the bit-string codecs -/

theorem bitsToNat_foldl (l : List Bool) (a : Nat) :
    l.foldl (fun x b => 2 * x + (if b then 1 else 0)) a =
      a * 2 ^ l.length + bitsToNat l := by
  induction l generalizing a with
  | nil => simp [bitsToNat]
  | cons b t ih =>
    simp only [List.foldl_cons, List.length_cons, bitsToNat] at *
    rw [ih, ih (2 * 0 + (if b then 1 else 0))]
    ring

theorem bitsToNat_append (xs ys : List Bool) :
    bitsToNat (xs ++ ys) = bitsToNat xs * 2 ^ ys.length + bitsToNat ys := by
  unfold bitsToNat
  rw [List.foldl_append]
  exact bitsToNat_foldl ys _

theorem natToBitsAux_val (fuel : Nat) :
    ∀ n, n ≤ fuel → bitsToNat (natToBitsAux fuel n).reverse = n := by
  induction fuel with
  | zero =>
    intro n hn
    interval_cases n
    simp [natToBitsAux, bitsToNat]
  | succ fuel ih =>
    intro n hn
    by_cases h0 : n = 0
    · subst h0; simp [natToBitsAux, bitsToNat]
    · rw [natToBitsAux]
      simp only [h0, if_false, List.reverse_cons]
      rw [bitsToNat_append, ih (n / 2) (by omega)]
      rcases Nat.mod_two_eq_zero_or_one n with h | h <;>
        simp [bitsToNat, h] <;> omega

theorem bitsToNat_natToBits (n : Nat) : bitsToNat (natToBits n) = n := by
  unfold natToBits
  by_cases h0 : n = 0
  · simp [h0, bitsToNat]
  · simp only [h0, if_false]
    exact natToBitsAux_val n n le_rfl

theorem natToBitsAux_length (fuel : Nat) :
    ∀ n k, n ≤ fuel → n < 2 ^ k → (natToBitsAux fuel n).length ≤ k := by
  induction fuel with
  | zero => intro n k hn _; interval_cases n; simp [natToBitsAux]
  | succ fuel ih =>
    intro n k hn hk
    by_cases h0 : n = 0
    · subst h0; simp [natToBitsAux]
    · rw [natToBitsAux]
      simp only [h0, if_false, List.length_cons]
      have hk1 : 1 ≤ k := by
        by_contra hc
        interval_cases k
        omega
      have hdiv : n / 2 < 2 ^ (k - 1) := by
        rw [Nat.div_lt_iff_lt_mul (by omega : 0 < 2)]
        calc n < 2 ^ k := hk
        _ = 2 ^ (k - 1) * 2 := by
              rw [← pow_succ]
              congr 1
              omega
      have := ih (n / 2) (k - 1) (by omega) hdiv
      omega

theorem natToBits_length_le {n k : Nat} (hn : n < 2 ^ k) (hk : 1 ≤ k) :
    (natToBits n).length ≤ k := by
  unfold natToBits
  by_cases h0 : n = 0
  · simp [h0]; omega
  · simp only [h0, if_false, List.length_reverse]
    exact natToBitsAux_length n n k le_rfl hn

theorem natToBitsAux_length_lower (fuel : Nat) :
    ∀ n k, n ≤ fuel → 2 ^ k ≤ n → k + 1 ≤ (natToBitsAux fuel n).length := by
  induction fuel with
  | zero =>
    intro n k hn hk
    have : 0 < 2 ^ k := Nat.pos_pow_of_pos k (by omega)
    omega
  | succ fuel ih =>
    intro n k hn hk
    have hpos : 0 < 2 ^ k := Nat.pos_pow_of_pos k (by omega)
    have h0 : n ≠ 0 := by omega
    rw [natToBitsAux]
    simp only [h0, if_false, List.length_cons]
    rcases Nat.eq_zero_or_pos k with hk0 | hkpos
    · omega
    · have hdiv : 2 ^ (k - 1) ≤ n / 2 := by
        rw [Nat.le_div_iff_mul_le (by omega : 0 < 2)]
        calc 2 ^ (k - 1) * 2 = 2 ^ k := by
              rw [← pow_succ]
              congr 1
              omega
        _ ≤ n := hk
      have := ih (n / 2) (k - 1) (by omega) hdiv
      omega

theorem natToBits_length_lower {n k : Nat} (hk : 2 ^ k ≤ n) :
    k + 1 ≤ (natToBits n).length := by
  unfold natToBits
  have hpos : 0 < 2 ^ k := Nat.pos_pow_of_pos k (by omega)
  have h0 : n ≠ 0 := by omega
  simp only [h0, if_false, List.length_reverse]
  exact natToBitsAux_length_lower n n k le_rfl hk

/-! ### The bit-list codec of the older machine variant (claim C6) -/

theorem lsbVal_cons (b : Nat) (t : List Nat) : lsbVal (b :: t) = b + 2 * lsbVal t := rfl

theorem enumFrom_foldl_val (l : List Nat) : ∀ i a : Nat,
    (List.enumFrom i l).foldl (fun val pb => val + pb.2 * 2 ^ pb.1) a =
      a + 2 ^ i * lsbVal l := by
  induction l with
  | nil => intro i a; simp [lsbVal]
  | cons b t ih =>
    intro i a
    show (List.foldl _ _ ((i, b) :: List.enumFrom (i + 1) t)) = _
    rw [List.foldl_cons, ih, lsbVal_cons, pow_succ]
    ring

theorem bin2dec_eq (value : List Nat) : bin2dec value = lsbVal value.reverse := by
  unfold bin2dec
  show (List.enumFrom 0 value.reverse).foldl _ 0 = _
  rw [enumFrom_foldl_val]
  simp

theorem lsbVal_append (xs ys : List Nat) :
    lsbVal (xs ++ ys) = lsbVal xs + 2 ^ xs.length * lsbVal ys := by
  induction xs with
  | nil => simp [lsbVal]
  | cons b t ih =>
    rw [List.cons_append, lsbVal_cons, lsbVal_cons, ih, List.length_cons, pow_succ]
    ring

theorem lsbVal_replicate_zero (n : Nat) : lsbVal (List.replicate n 0) = 0 := by
  induction n with
  | zero => rfl
  | succ n ih => rw [List.replicate_succ, lsbVal_cons, ih]

theorem dec2binAux_val (fuel : Nat) :
    ∀ n, n ≤ fuel → lsbVal (dec2binAux fuel n) = n := by
  induction fuel with
  | zero => intro n hn; interval_cases n; rfl
  | succ fuel ih =>
    intro n hn
    by_cases h0 : n = 0
    · subst h0; rfl
    · rw [dec2binAux]
      simp only [h0, if_false]
      rw [lsbVal_cons, ih (n / 2) (by omega)]
      omega

/-- Claim C6: for every non-negative integer `v < 2 ^ W` and every bit count
`k ≤ W`, converting `v` to a bit list with minimum length `k` and converting
the result back yields `v`: `bin2dec (dec2bin v k) = v`. -/
theorem C6_roundtrip (v k : Nat) (hv : v < 2 ^ WORD_SIZE) (hk : k ≤ WORD_SIZE) :
    bin2dec (dec2bin v k) = v := by
  unfold dec2bin
  rw [bin2dec_eq, List.reverse_reverse, lsbVal_append, lsbVal_replicate_zero,
    dec2binAux_val v v le_rfl]
  ring

/-- Witness for C6 at `v = 42`, `k = 7`. -/
theorem C6_roundtrip_witness :
    42 < 2 ^ WORD_SIZE ∧ 7 ≤ WORD_SIZE ∧ bin2dec (dec2bin 42 7) = 42 :=
  ⟨by norm_num [WORD_SIZE], by norm_num [WORD_SIZE],
    C6_roundtrip 42 7 (by norm_num [WORD_SIZE]) (by norm_num [WORD_SIZE])⟩

/-! ### The operand splitter (claim C3) and the dispatch table (claim C2) -/

theorem _split_args_fst (args : List Bool) (pos : Nat) (sb : Int) :
    (_split_args args pos sb).1 = args.take pos := rfl

theorem _split_args_default_snd {args : List Bool} {pos : Nat}
    (hlen : args.length = WORD_SIZE - OPCODE_BITS) (hpos : pos < WORD_SIZE - OPCODE_BITS) :
    (_split_args args pos).2 = args.drop pos := by
  simp only [_split_args, pySlice, hlen, if_pos rfl]
  norm_num [WORD_SIZE, OPCODE_BITS] at hpos ⊢
  rw [if_pos hpos]
  congr 1
  omega

theorem _split_args_fixed_snd {args : List Bool} {pos : Nat} {m : Nat} (hm : 1 ≤ m) :
    (_split_args args pos (m : Int)).2 = args.drop (args.length - m) := by
  have hne : (m : Int) ≠ -1 := by omega
  have hneg : (-(m : Int)) < 0 := by omega
  simp only [_split_args, pySlice]
  rw [if_neg hne, if_pos hneg]
  norm_num

/-- Claim C2 as stated is false at opcode 7: the dispatch table built by
`create_instruction_set` does map the value 7 (to `add_mem_reg`), while the
claim allows only 0 through 6. -/
theorem C2_counterexample :
    (instruction_set 7).isSome = true ∧ ¬(7 : Nat) ≤ 6 :=
  ⟨rfl, by omega⟩

/-- Claim C2 amended: the dispatch table, fixed at construction, maps exactly
the opcode values 0 through 7, and the reserved continuation opcode 63 is
never mapped to an operation. -/
theorem C2_table (op : Nat) :
    ((instruction_set op).isSome = true ↔ op ≤ 7) ∧ instruction_set 63 = none := by
  refine ⟨⟨?_, ?_⟩, rfl⟩
  · intro h
    by_contra hc
    obtain ⟨m, rfl⟩ : ∃ m, op = m + 8 := ⟨op - 8, by omega⟩
    have : instruction_set (m + 8) = none := rfl
    rw [this] at h
    cases h
  · intro h
    interval_cases op <;> rfl

/-- Claim C3 as stated is false for the fixed-width splits: the split used by
`move_reg_mem` on a full single-word operand field of length 26 yields a
3-bit first sub-operand and a 10-bit second sub-operand, and 3 + 10 is not the
length of the field being split. -/
theorem C3_counterexample :
    ((_split_args (List.replicate 26 false) REGISTER_BITS (MEM_ADDR_BITS : Int)).1).length = 3 ∧
    ((_split_args (List.replicate 26 false) REGISTER_BITS (MEM_ADDR_BITS : Int)).2).length = 10 ∧
    (List.replicate 26 false).length = 26 ∧ ¬(3 + 10 = 26) :=
  ⟨rfl, rfl, rfl, by omega⟩

/-- Claim C3 amended: every split takes the first `pos` bits as the first
sub-operand and the last `m` bits as the second.  When the second width is
computed (constant-operand opcodes) and the field has single-word length, the
two widths sum to the field length; when the second width `m` is fixed, the
second sub-operand is the last `m` bits regardless of the field length, so
the widths need not sum to the field length and middle bits are dropped. -/
theorem C3_amended :
    (∀ (args : List Bool) (pos : Nat),
      args.length = WORD_SIZE - OPCODE_BITS → pos < WORD_SIZE - OPCODE_BITS →
      _split_args args pos = (args.take pos, args.drop pos) ∧
      ((_split_args args pos).1).length + ((_split_args args pos).2).length = args.length) ∧
    (∀ (args : List Bool) (pos m : Nat), 1 ≤ m → m ≤ args.length →
      _split_args args pos (m : Int) = (args.take pos, args.drop (args.length - m)) ∧
      ((_split_args args pos (m : Int)).2).length = m) := by
  constructor
  · intro args pos hlen hpos
    have h2 := _split_args_default_snd hlen hpos
    have heq : _split_args args pos = (args.take pos, args.drop pos) :=
      Prod.ext (_split_args_fst args pos (-1)) h2
    refine ⟨heq, ?_⟩
    rw [heq]
    simp only [List.length_take, List.length_drop]
    rw [hlen]
    norm_num [WORD_SIZE, OPCODE_BITS] at hpos ⊢
    omega
  · intro args pos m hm hmlen
    have h2 : (_split_args args pos (m : Int)).2 = args.drop (args.length - m) :=
      _split_args_fixed_snd hm
    have heq : _split_args args pos (m : Int) = (args.take pos, args.drop (args.length - m)) :=
      Prod.ext (_split_args_fst args pos (m : Int)) h2
    refine ⟨heq, ?_⟩
    rw [heq]
    simp only [List.length_drop]
    omega

/-- Witness for the amended C3 at a concrete field: the computed split of a
26-bit field at the register width, and the fixed split used by
`move_reg_mem`. -/
theorem C3_amended_witness :
    _split_args (List.replicate 26 false) REGISTER_BITS =
      ((List.replicate 26 false).take 3, (List.replicate 26 false).drop 3) ∧
    ((_split_args (List.replicate 26 false) REGISTER_BITS (MEM_ADDR_BITS : Int)).2).length = 10 := by
  constructor
  · exact (C3_amended.1 (List.replicate 26 false) 3 (by decide) (by decide)).1
  · exact (C3_amended.2 (List.replicate 26 false) 3 10 (by decide) (by decide)).2

/-! ### Characterizations of the primitive state operations -/

theorem Memory.load_ok {m : Memory} {a : Nat} {v : List Bool}
    (h : m.load a = .ok v) : a < m.blocks ∧ v = m.cells a := by
  unfold Memory.load at h
  split at h
  · next hlt => exact ⟨hlt, by injection h with h; exact h.symm⟩
  · cases h

theorem Memory.load_of_lt {m : Memory} {a : Nat} (h : a < m.blocks) :
    m.load a = .ok (m.cells a) := by
  unfold Memory.load
  rw [if_pos h]

theorem Memory.store_ok_cells {m : Memory} {a : Nat} {v : Binary} {m2 : Memory}
    (h : m.store a v = .ok m2) :
    a < m.blocks ∧ (binEncode v).length ≤ WORD_SIZE ∧
      m2 = { blocks := m.blocks, cells := updateCell m.cells a (binEncode v) } := by
  unfold Memory.store at h
  split at h
  · next hlt =>
    split at h
    · cases h
    · next hlen =>
      refine ⟨hlt, by omega, ?_⟩
      injection h with h
      exact h.symm
  · cases h

theorem CPU.store_ok_regs {s : MachineState} {r : Reg} {v : Binary} {s2 : MachineState}
    (h : CPU.store s r v = .ok s2) :
    (binEncode v).length ≤ WORD_SIZE ∧
      s2 = { s with regs := updateReg s.regs r (binEncode v) } := by
  unfold CPU.store at h
  split at h
  · cases h
  · next hlen =>
    refine ⟨by omega, ?_⟩
    injection h with h
    exact h.symm

theorem CPU.store_of_le {s : MachineState} {r : Reg} {v : Binary}
    (h : (binEncode v).length ≤ WORD_SIZE) :
    CPU.store s r v = .ok { s with regs := updateReg s.regs r (binEncode v) } := by
  unfold CPU.store
  rw [if_neg (by omega)]

theorem store_in_memory_ok {s : MachineState} {a : Nat} {v : Binary} {s2 : MachineState}
    (h : store_in_memory s a v = .ok s2) :
    a < s.mem.blocks ∧ (binEncode v).length ≤ WORD_SIZE ∧
      s2 = { s with
        mem := { blocks := s.mem.blocks, cells := updateCell s.mem.cells a (binEncode v) } } := by
  unfold store_in_memory at h
  cases hm : Memory.store s.mem a v with
  | error e => rw [hm] at h; cases h
  | ok m2 =>
    rw [hm] at h
    obtain ⟨h1, h2, rfl⟩ := Memory.store_ok_cells hm
    refine ⟨h1, h2, ?_⟩
    injection h with h
    exact h.symm

theorem updateReg_same (f : Reg → List Bool) (r : Reg) (v : List Bool) :
    updateReg f r v r = v := by
  unfold updateReg
  rw [if_pos rfl]

theorem updateReg_other {x r : Reg} (f : Reg → List Bool) (v : List Bool) (hx : x ≠ r) :
    updateReg f r v x = f x := by
  unfold updateReg
  rw [if_neg hx]

theorem updateCell_same (f : Nat → List Bool) (a : Nat) (v : List Bool) :
    updateCell f a v a = v := by
  unfold updateCell
  rw [if_pos rfl]

theorem load_next_instruction_ok {s s1 : MachineState}
    (h : load_next_instruction s = .ok s1) :
    bitsToNat (s.regs Reg.PC) < s.mem.blocks ∧
    (s.mem.cells (bitsToNat (s.regs Reg.PC))).length ≤ WORD_SIZE ∧
    (natToBits (bitsToNat (s.regs Reg.PC) + 1)).length ≤ WORD_SIZE ∧
    s1 = { s with
      regs := updateReg (updateReg s.regs Reg.IR (s.mem.cells (bitsToNat (s.regs Reg.PC))))
        Reg.PC (natToBits (bitsToNat (s.regs Reg.PC) + 1)) } := by
  unfold load_next_instruction at h
  cases hl : Memory.load s.mem (bitsToNat (s.regs Reg.PC)) with
  | error e => rw [hl] at h; cases h
  | ok w =>
    rw [hl] at h
    obtain ⟨hlt, rfl⟩ := Memory.load_ok hl
    dsimp only at h
    cases hs1 : CPU.store s Reg.IR (.b (s.mem.cells (bitsToNat (s.regs Reg.PC)))) with
    | error e => rw [hs1] at h; cases h
    | ok sa =>
      rw [hs1] at h
      dsimp only at h
      obtain ⟨hw, rfl⟩ := CPU.store_ok_regs hs1
      obtain ⟨hp, h2⟩ := CPU.store_ok_regs h
      exact ⟨hlt, hw, hp, h2⟩

theorem load_next_instruction_of (s : MachineState)
    (hlt : bitsToNat (s.regs Reg.PC) < s.mem.blocks)
    (hw : (s.mem.cells (bitsToNat (s.regs Reg.PC))).length ≤ WORD_SIZE)
    (hp : (natToBits (bitsToNat (s.regs Reg.PC) + 1)).length ≤ WORD_SIZE) :
    load_next_instruction s = .ok { s with
      regs := updateReg (updateReg s.regs Reg.IR (s.mem.cells (bitsToNat (s.regs Reg.PC))))
        Reg.PC (natToBits (bitsToNat (s.regs Reg.PC) + 1)) } := by
  unfold load_next_instruction
  rw [Memory.load_of_lt hlt]
  dsimp only
  rw [CPU.store_of_le (v := .b (s.mem.cells (bitsToNat (s.regs Reg.PC)))) hw]
  dsimp only
  exact CPU.store_of_le (v := .d (bitsToNat (s.regs Reg.PC) + 1)) hp

theorem analyze_instruction_of {s : MachineState} (h : (s.regs Reg.IR).length = WORD_SIZE) :
    analyze_instruction s =
      .ok (bitsToNat ((s.regs Reg.IR).take OPCODE_BITS), (s.regs Reg.IR).drop OPCODE_BITS) := by
  unfold analyze_instruction
  rw [if_neg (by omega)]

theorem _to_register_ok {bs : List Bool} {r : Reg} (h : _to_register bs = .ok r) :
    regList.get? (bitsToNat bs) = some r := by
  unfold _to_register at h
  cases hg : regList.get? (bitsToNat bs) with
  | none => rw [hg] at h; cases h
  | some x => rw [hg] at h; injection h with h; rw [h]

theorem _to_register_ne_PC {bs : List Bool} {r : Reg} (h : _to_register bs = .ok r)
    (hne : bitsToNat bs ≠ 3) : r ≠ Reg.PC := by
  have hg := _to_register_ok h
  intro hr
  subst hr
  have hlt : bitsToNat bs < regList.length := List.get?_eq_some.mp hg |>.1
  simp only [regList, List.length_cons, List.length_nil] at hlt
  interval_cases h2 : bitsToNat bs <;> simp_all [regList]

/-! ### Per-instruction characterizations -/

theorem move_reg_const_char {s : MachineState} {args : List Bool} {s2 : MachineState}
    (h : move_reg_const s args = .ok s2) :
    ∃ r v, _to_register (args.take REGISTER_BITS) = .ok r ∧ v.length ≤ WORD_SIZE ∧
      s2 = { s with regs := updateReg s.regs r v } := by
  unfold move_reg_const at h
  cases hr : _to_register (_split_args args REGISTER_BITS).1 with
  | error e => rw [hr] at h; cases h
  | ok r =>
    rw [hr] at h
    dsimp only at h
    obtain ⟨hl, rfl⟩ := CPU.store_ok_regs h
    exact ⟨r, _, hr, hl, rfl⟩

theorem move_reg_mem_char {s : MachineState} {args : List Bool} {s2 : MachineState}
    (h : move_reg_mem s args = .ok s2) :
    ∃ r v, _to_register (args.take REGISTER_BITS) = .ok r ∧ v.length ≤ WORD_SIZE ∧
      s2 = { s with regs := updateReg s.regs r v } := by
  unfold move_reg_mem at h
  cases hr : _to_register (_split_args args REGISTER_BITS (MEM_ADDR_BITS : Int)).1 with
  | error e => rw [hr] at h; cases h
  | ok r =>
    rw [hr] at h
    dsimp only at h
    cases hl : Memory.load s.mem
        (bitsToNat (_split_args args REGISTER_BITS (MEM_ADDR_BITS : Int)).2) with
    | error e => rw [hl] at h; cases h
    | ok w =>
      rw [hl] at h
      dsimp only at h
      obtain ⟨hlen, rfl⟩ := CPU.store_ok_regs h
      exact ⟨r, _, hr, hlen, rfl⟩

theorem add_reg_const_char {s : MachineState} {args : List Bool} {s2 : MachineState}
    (h : add_reg_const s args = .ok s2) :
    ∃ r v, _to_register (args.take REGISTER_BITS) = .ok r ∧ v.length ≤ WORD_SIZE ∧
      s2 = { s with regs := updateReg s.regs r v } := by
  unfold add_reg_const at h
  cases hr : _to_register (_split_args args REGISTER_BITS).1 with
  | error e => rw [hr] at h; cases h
  | ok r =>
    rw [hr] at h
    dsimp only at h
    obtain ⟨hl, rfl⟩ := CPU.store_ok_regs h
    exact ⟨r, _, hr, hl, rfl⟩

theorem add_reg_mem_char {s : MachineState} {args : List Bool} {s2 : MachineState}
    (h : add_reg_mem s args = .ok s2) :
    ∃ r v, _to_register (args.take REGISTER_BITS) = .ok r ∧ v.length ≤ WORD_SIZE ∧
      s2 = { s with regs := updateReg s.regs r v } := by
  unfold add_reg_mem at h
  cases hr : _to_register (_split_args args REGISTER_BITS (MEM_ADDR_BITS : Int)).1 with
  | error e => rw [hr] at h; cases h
  | ok r =>
    rw [hr] at h
    dsimp only at h
    cases hl : Memory.load s.mem
        (bitsToNat (_split_args args REGISTER_BITS (MEM_ADDR_BITS : Int)).2) with
    | error e => rw [hl] at h; cases h
    | ok w =>
      rw [hl] at h
      dsimp only at h
      obtain ⟨hlen, rfl⟩ := CPU.store_ok_regs h
      exact ⟨r, _, hr, hlen, rfl⟩

theorem move_mem_const_char {s : MachineState} {args : List Bool} {s2 : MachineState}
    (h : move_mem_const s args = .ok s2) :
    ∃ a v, v.length ≤ WORD_SIZE ∧
      s2 = { s with
        mem := { blocks := s.mem.blocks, cells := updateCell s.mem.cells a v } } := by
  unfold move_mem_const at h
  obtain ⟨h1, h2, rfl⟩ := store_in_memory_ok h
  exact ⟨_, _, h2, rfl⟩

theorem move_mem_mem_char {s : MachineState} {args : List Bool} {s2 : MachineState}
    (h : move_mem_mem s args = .ok s2) :
    ∃ a v, v.length ≤ WORD_SIZE ∧
      s2 = { s with
        mem := { blocks := s.mem.blocks, cells := updateCell s.mem.cells a v } } := by
  unfold move_mem_mem at h
  cases hl : Memory.load s.mem
      (bitsToNat (_split_args args MEM_ADDR_BITS (MEM_ADDR_BITS : Int)).2) with
  | error e => rw [hl] at h; cases h
  | ok w =>
    rw [hl] at h
    dsimp only at h
    obtain ⟨h1, h2, rfl⟩ := store_in_memory_ok h
    exact ⟨_, _, h2, rfl⟩

theorem move_mem_reg_char {s : MachineState} {args : List Bool} {s2 : MachineState}
    (h : move_mem_reg s args = .ok s2) :
    ∃ a v, v.length ≤ WORD_SIZE ∧
      s2 = { s with
        mem := { blocks := s.mem.blocks, cells := updateCell s.mem.cells a v } } := by
  unfold move_mem_reg at h
  cases hr : _to_register (_split_args args MEM_ADDR_BITS (REGISTER_BITS : Int)).2 with
  | error e => rw [hr] at h; cases h
  | ok r =>
    rw [hr] at h
    dsimp only at h
    obtain ⟨h1, h2, rfl⟩ := store_in_memory_ok h
    exact ⟨_, _, h2, rfl⟩

theorem add_mem_reg_char {s : MachineState} {args : List Bool} {s2 : MachineState}
    (h : add_mem_reg s args = .ok s2) :
    ∃ a v, v.length ≤ WORD_SIZE ∧
      s2 = { s with
        mem := { blocks := s.mem.blocks, cells := updateCell s.mem.cells a v } } := by
  unfold add_mem_reg at h
  cases hr : _to_register (_split_args args MEM_ADDR_BITS (REGISTER_BITS : Int)).2 with
  | error e => rw [hr] at h; cases h
  | ok r =>
    rw [hr] at h
    dsimp only at h
    cases hl : Memory.load s.mem
        (bitsToNat (_split_args args MEM_ADDR_BITS (REGISTER_BITS : Int)).1) with
    | error e => rw [hl] at h; cases h
    | ok w =>
      rw [hl] at h
      dsimp only at h
      obtain ⟨h1, h2, rfl⟩ := store_in_memory_ok h
      exact ⟨_, _, h2, rfl⟩

/-! ### Dispatch preserves PC (outside the PC-writing cases) and WF -/

theorem dispatchOp_regs_PC {op : Nat} {s : MachineState} {args : List Bool}
    {s2 : MachineState} (h : dispatchOp op s args = .ok s2)
    (hw : dispatch_writes_PC op args = false) : s2.regs Reg.PC = s.regs Reg.PC := by
  rcases op with _|_|_|_|_|_|_|_|n
  · replace h : move_reg_const s args = .ok s2 := h
    replace hw : decide (bitsToNat (args.take REGISTER_BITS) = 3) = false := hw
    have hne := of_decide_eq_false hw
    obtain ⟨r, v, hr, hv, rfl⟩ := move_reg_const_char h
    exact updateReg_other s.regs v (Ne.symm (_to_register_ne_PC hr hne))
  · replace h : move_reg_mem s args = .ok s2 := h
    replace hw : decide (bitsToNat (args.take REGISTER_BITS) = 3) = false := hw
    have hne := of_decide_eq_false hw
    obtain ⟨r, v, hr, hv, rfl⟩ := move_reg_mem_char h
    exact updateReg_other s.regs v (Ne.symm (_to_register_ne_PC hr hne))
  · replace h : move_mem_const s args = .ok s2 := h
    obtain ⟨a, v, hv, rfl⟩ := move_mem_const_char h
    rfl
  · replace h : move_mem_mem s args = .ok s2 := h
    obtain ⟨a, v, hv, rfl⟩ := move_mem_mem_char h
    rfl
  · replace h : move_mem_reg s args = .ok s2 := h
    obtain ⟨a, v, hv, rfl⟩ := move_mem_reg_char h
    rfl
  · replace h : add_reg_const s args = .ok s2 := h
    replace hw : decide (bitsToNat (args.take REGISTER_BITS) = 3) = false := hw
    have hne := of_decide_eq_false hw
    obtain ⟨r, v, hr, hv, rfl⟩ := add_reg_const_char h
    exact updateReg_other s.regs v (Ne.symm (_to_register_ne_PC hr hne))
  · replace h : add_reg_mem s args = .ok s2 := h
    replace hw : decide (bitsToNat (args.take REGISTER_BITS) = 3) = false := hw
    have hne := of_decide_eq_false hw
    obtain ⟨r, v, hr, hv, rfl⟩ := add_reg_mem_char h
    exact updateReg_other s.regs v (Ne.symm (_to_register_ne_PC hr hne))
  · replace h : add_mem_reg s args = .ok s2 := h
    obtain ⟨a, v, hv, rfl⟩ := add_mem_reg_char h
    rfl
  · replace h : (Except.error Err.unknownOpcode : Except Err MachineState) = .ok s2 := h
    cases h

theorem WF_updateReg {s : MachineState} {r : Reg} {v : List Bool}
    (hwf : WF s) (hv : v.length ≤ WORD_SIZE) :
    WF { s with regs := updateReg s.regs r v } := by
  refine ⟨?_, hwf.2⟩
  intro x
  unfold updateReg
  dsimp only
  split
  · exact hv
  · exact hwf.1 x

theorem WF_updateCell {s : MachineState} {a : Nat} {v : List Bool}
    (hwf : WF s) (hv : v.length ≤ WORD_SIZE) :
    WF { s with mem := { blocks := s.mem.blocks, cells := updateCell s.mem.cells a v } } := by
  refine ⟨hwf.1, ?_⟩
  intro x
  unfold updateCell
  dsimp only
  split
  · exact hv
  · exact hwf.2 x

theorem dispatchOp_WF {op : Nat} {s : MachineState} {args : List Bool}
    {s2 : MachineState} (h : dispatchOp op s args = .ok s2) (hwf : WF s) : WF s2 := by
  rcases op with _|_|_|_|_|_|_|_|n
  · obtain ⟨r, v, hr, hv, rfl⟩ := @move_reg_const_char s args _ h
    exact WF_updateReg hwf hv
  · obtain ⟨r, v, hr, hv, rfl⟩ := @move_reg_mem_char s args _ h
    exact WF_updateReg hwf hv
  · obtain ⟨a, v, hv, rfl⟩ := @move_mem_const_char s args _ h
    exact WF_updateCell hwf hv
  · obtain ⟨a, v, hv, rfl⟩ := @move_mem_mem_char s args _ h
    exact WF_updateCell hwf hv
  · obtain ⟨a, v, hv, rfl⟩ := @move_mem_reg_char s args _ h
    exact WF_updateCell hwf hv
  · obtain ⟨r, v, hr, hv, rfl⟩ := @add_reg_const_char s args _ h
    exact WF_updateReg hwf hv
  · obtain ⟨r, v, hr, hv, rfl⟩ := @add_reg_mem_char s args _ h
    exact WF_updateReg hwf hv
  · obtain ⟨a, v, hv, rfl⟩ := @add_mem_reg_char s args _ h
    exact WF_updateCell hwf hv
  · replace h : (Except.error Err.unknownOpcode : Except Err MachineState) = .ok s2 := h
    cases h

theorem load_next_instruction_WF {s s1 : MachineState}
    (h : load_next_instruction s = .ok s1) (hwf : WF s) : WF s1 := by
  obtain ⟨hlt, hcw, hpw, rfl⟩ := load_next_instruction_ok h
  exact WF_updateReg (WF_updateReg hwf hcw) hpw

theorem execute_current_instruction_WF {s s2 : MachineState}
    (h : execute_current_instruction s = .ok s2) (hwf : WF s) : WF s2 := by
  unfold execute_current_instruction at h
  cases ha : analyze_instruction s with
  | error e => rw [ha] at h; cases h
  | ok fa =>
    rw [ha] at h
    dsimp only at h
    by_cases h63 : fa.1 = 63
    · rw [if_pos h63] at h
      cases hf : load_next_instruction s with
      | error e => rw [hf] at h; cases h
      | ok sa =>
        rw [hf] at h
        dsimp only at h
        cases ha2 : analyze_instruction sa with
        | error e => rw [ha2] at h; cases h
        | ok fa2 =>
          rw [ha2] at h
          dsimp only at h
          exact dispatchOp_WF h (load_next_instruction_WF hf hwf)
    · rw [if_neg h63] at h
      exact dispatchOp_WF h hwf

theorem stepMachine_WF {s s2 : MachineState}
    (h : stepMachine s = .ok s2) (hwf : WF s) : WF s2 := by
  unfold stepMachine at h
  cases hf : load_next_instruction s with
  | error e => rw [hf] at h; cases h
  | ok s1 =>
    rw [hf] at h
    dsimp only at h
    exact execute_current_instruction_WF h (load_next_instruction_WF hf hwf)

theorem store_program_lines_WF {prog : List (List Bool)} :
    ∀ {s : MachineState} {i : Nat} {s2 : MachineState},
    store_program_lines s i prog = .ok s2 → WF s → WF s2 := by
  induction prog with
  | nil =>
    intro s i s2 h hwf
    injection h with h
    rw [← h]
    exact hwf
  | cons line rest ih =>
    intro s i s2 h hwf
    unfold store_program_lines at h
    cases hm : store_in_memory s i (.b line) with
    | error e => rw [hm] at h; cases h
    | ok s1 =>
      rw [hm] at h
      dsimp only at h
      obtain ⟨h1, h2, rfl⟩ := store_in_memory_ok hm
      exact ih h (WF_updateCell hwf h2)

theorem load_program_WF {s : MachineState} {prog : List (List Bool)} {s2 : MachineState}
    (h : load_program s prog = .ok s2) (hwf : WF s) : WF s2 := by
  unfold load_program at h
  cases h0 : CPU.store s Reg.PC (.d 0) with
  | error e => rw [h0] at h; cases h
  | ok s0 =>
    rw [h0] at h
    dsimp only at h
    obtain ⟨hl, rfl⟩ := CPU.store_ok_regs h0
    exact store_program_lines_WF h (WF_updateReg hwf hl)

/-! ### Claim C5: overflow rejection and the word-size invariant -/

/-- Claim C5: storing a value whose encoded bit length exceeds `W = 32` into
any existing register or memory cell fails with ValueTooLong (the state is
returned unchanged, matching the Python raise that precedes the assignment),
and no register or memory cell ever holds more than `W` bits: the freshly
constructed machine satisfies the bound and every fetch/decode/execute step
and every program load preserves it. -/
theorem C5_overflow_and_invariant :
    (∀ (m : Memory) (address : Nat) (value : Binary), address < m.blocks →
      WORD_SIZE < (binEncode value).length →
      m.store address value = .error .valueTooLong) ∧
    (∀ (s : MachineState) (regid : Reg) (value : Binary),
      WORD_SIZE < (binEncode value).length →
      CPU.store s regid value = .error .valueTooLong) ∧
    WF initMachine ∧
    (∀ (s s2 : MachineState), stepMachine s = .ok s2 → WF s → WF s2) ∧
    (∀ (s : MachineState) (prog : List (List Bool)) (s2 : MachineState),
      load_program s prog = .ok s2 → WF s → WF s2) := by
  refine ⟨?_, ?_, ?_, ?_, ?_⟩
  · intro m address value hlt hlen
    unfold Memory.store
    rw [if_pos hlt, if_pos (by omega)]
  · intro s regid value hlen
    unfold CPU.store
    rw [if_pos (by omega)]
  · constructor
    · intro r
      norm_num [initMachine, WORD_SIZE]
    · intro a
      norm_num [initMachine, WORD_SIZE]
  · intro s s2 h hwf
    exact stepMachine_WF h hwf
  · intro s prog s2 h hwf
    exact load_program_WF h hwf

/-- Witness for C5: storing a 33-bit value at a valid address and in a
register fails with ValueTooLong on the fresh machine. -/
theorem C5_overflow_witness :
    Memory.store initMachine.mem 0 (.b (List.replicate 33 true)) =
      .error .valueTooLong ∧
    CPU.store initMachine Reg.AC (.b (List.replicate 33 true)) =
      .error .valueTooLong :=
  ⟨C5_overflow_and_invariant.1 initMachine.mem 0 (.b (List.replicate 33 true))
      (by norm_num [initMachine]) (by norm_num [binEncode, WORD_SIZE]),
    C5_overflow_and_invariant.2.1 initMachine Reg.AC (.b (List.replicate 33 true))
      (by norm_num [binEncode, WORD_SIZE])⟩

/-! ### Claim C4: PC movement during a step -/

/-- Claim C4 amended: over a complete fetch/decode/execute step that succeeds,
the decimal value of PC advances by exactly 1 (no continuation) or exactly 2
(continuation triggered), provided the executed instruction does not itself
write the PC register; a register-writing opcode whose 3-bit register
sub-field decodes to positional index 3 stores directly into PC (an indirect
control transfer), which is the only other way a step can change PC. -/
theorem C4_pc_advance (s sF : MachineState) (h : stepMachine s = .ok sF)
    (hw : step_writes_PC s = false) :
    bitsToNat (sF.regs Reg.PC) = bitsToNat (s.regs Reg.PC) + 1 ∨
    bitsToNat (sF.regs Reg.PC) = bitsToNat (s.regs Reg.PC) + 2 := by
  unfold stepMachine at h
  unfold step_writes_PC at hw
  cases hf : load_next_instruction s with
  | error e => rw [hf] at h; cases h
  | ok s1 =>
    rw [hf] at h hw
    dsimp only at h hw
    obtain ⟨hlt, hcw, hpw, hs1⟩ := load_next_instruction_ok hf
    have hs1PC : s1.regs Reg.PC = natToBits (bitsToNat (s.regs Reg.PC) + 1) := by
      rw [hs1]
      dsimp only
      exact updateReg_same _ _ _
    unfold execute_current_instruction at h
    cases ha : analyze_instruction s1 with
    | error e => rw [ha] at h; cases h
    | ok fa =>
      rw [ha] at h hw
      dsimp only at h hw
      by_cases h63 : fa.1 = 63
      · rw [if_pos h63] at h hw
        cases hf2 : load_next_instruction s1 with
        | error e => rw [hf2] at h; cases h
        | ok s2 =>
          rw [hf2] at h hw
          dsimp only at h hw
          obtain ⟨hlt2, hcw2, hpw2, hs2⟩ := load_next_instruction_ok hf2
          have hs2PC : bitsToNat (s2.regs Reg.PC) = bitsToNat (s.regs Reg.PC) + 2 := by
            rw [hs2]
            dsimp only
            rw [updateReg_same, bitsToNat_natToBits, hs1PC, bitsToNat_natToBits]
          cases ha2 : analyze_instruction s2 with
          | error e => rw [ha2] at h; cases h
          | ok fa2 =>
            rw [ha2] at h hw
            dsimp only at h hw
            right
            rw [dispatchOp_regs_PC h hw, hs2PC]
      · rw [if_neg h63] at h hw
        left
        rw [dispatchOp_regs_PC h hw, hs1PC, bitsToNat_natToBits]

/-- Claim C4 as stated is false: a move-register-constant whose register
sub-field is positional index 3 writes the PC register, so executing it from
PC = 0 leaves PC = 7, advancing it by neither 1 nor 2. -/
theorem C4_counterexample :
    (stepMachine ex4).map (fun t => bitsToNat (t.regs Reg.PC)) = .ok 7 ∧
    bitsToNat (ex4.regs Reg.PC) = 0 ∧ ¬((7 : Nat) = 0 + 1 ∨ (7 : Nat) = 0 + 2) :=
  ⟨rfl, rfl, by omega⟩

/-- Witness for the amended C4: one step of `exC4` (a move of 42 into AC)
advances PC by exactly 1. -/
theorem C4_pc_advance_witness :
    bitsToNat (exC4sF.regs Reg.PC) = bitsToNat (exC4.regs Reg.PC) + 1 ∨
    bitsToNat (exC4sF.regs Reg.PC) = bitsToNat (exC4.regs Reg.PC) + 2 :=
  C4_pc_advance exC4 exC4sF (by rfl) (by rfl)

/-! ### Claim C9: the freshly constructed machine -/

/-- Claim C9: on a fresh machine every register and memory cell holds the
one-bit zero string; the first fetch succeeds, leaving the one-bit zero in IR
and PC = 1; the subsequent decode fails with MalformedInstruction because IR
is 1 bit long rather than `W`. -/
theorem C9_fresh_machine :
    (∀ r, initMachine.regs r = [false]) ∧
    (∀ a, a < 8 → initMachine.mem.cells a = [false]) ∧
    load_next_instruction initMachine = .ok initFetched ∧
    initFetched.regs Reg.IR = [false] ∧
    (initFetched.regs Reg.IR).length = 1 ∧
    bitsToNat (initFetched.regs Reg.PC) = 1 ∧
    analyze_instruction initFetched = .error .malformedInstruction :=
  ⟨fun r => rfl, fun a ha => rfl, rfl, rfl, rfl, rfl, rfl⟩

/-- Witness for C9 at the concrete memory address 5. -/
theorem C9_fresh_machine_witness : initMachine.mem.cells 5 = [false] :=
  C9_fresh_machine.2.1 5 (by omega)

/-! ### Claim C7: move-register-constant of 42 into AC -/

/-- Claim C7: executing move-register-constant with register sub-field AC and
constant bits encoding 42 on any state stores 42 into AC (decimally) and
leaves every other register and all of memory unchanged. -/
theorem C7_move_const (s : MachineState) (args : List Bool)
    (hlen : args.length = 26)
    (hreg : args.take REGISTER_BITS = [false, false, false])
    (hval : bitsToNat (args.drop REGISTER_BITS) = 42) :
    move_reg_const s args =
      .ok { s with regs := updateReg s.regs Reg.AC (natToBits 42) } ∧
    bitsToNat (updateReg s.regs Reg.AC (natToBits 42) Reg.AC) = 42 ∧
    (∀ r, r ≠ Reg.AC → updateReg s.regs Reg.AC (natToBits 42) r = s.regs r) := by
  have hsplit2 : (_split_args args REGISTER_BITS).2 = args.drop REGISTER_BITS :=
    _split_args_default_snd (by rw [hlen]; norm_num [WORD_SIZE, OPCODE_BITS])
      (by norm_num [WORD_SIZE, OPCODE_BITS, REGISTER_BITS])
  refine ⟨?_, ?_, ?_⟩
  · unfold move_reg_const
    have h1 : _to_register (_split_args args REGISTER_BITS).1 = .ok Reg.AC := by
      rw [_split_args_fst, hreg]
      rfl
    rw [h1]
    dsimp only
    rw [hsplit2, hval]
    exact CPU.store_of_le (v := .d 42) (by decide)
  · rw [updateReg_same]
    exact bitsToNat_natToBits 42
  · intro r hr
    exact updateReg_other _ _ hr

/-- Witness for C7 on the fresh machine with a concrete operand field. -/
theorem C7_move_const_witness :
    move_reg_const initMachine exC7args =
      .ok { initMachine with regs := updateReg initMachine.regs Reg.AC (natToBits 42) } ∧
    bitsToNat (updateReg initMachine.regs Reg.AC (natToBits 42) Reg.AC) = 42 :=
  ⟨(C7_move_const initMachine exC7args (by decide) (by decide) (by decide)).1,
    (C7_move_const initMachine exC7args (by decide) (by decide) (by decide)).2.1⟩

/-! ### Claim C8: add-register-memory with AC = 5 and memory[0] = 3 -/

/-- Claim C8: in any state where AC decimally holds 5 and memory address 0
decimally holds 3, executing add-register-memory with register sub-field AC
and address sub-field 0 leaves AC decimally equal to 8. -/
theorem C8_add_reg_mem (s : MachineState) (args : List Bool)
    (hblocks : 0 < s.mem.blocks)
    (hAC : bitsToNat (s.regs Reg.AC) = 5)
    (hm0 : bitsToNat (s.mem.cells 0) = 3)
    (hlen : args.length = 26)
    (hreg : args.take REGISTER_BITS = [false, false, false])
    (haddr : bitsToNat (args.drop 16) = 0) :
    add_reg_mem s args =
      .ok { s with regs := updateReg s.regs Reg.AC (natToBits 8) } ∧
    bitsToNat (updateReg s.regs Reg.AC (natToBits 8) Reg.AC) = 8 := by
  have hsplit2 : (_split_args args REGISTER_BITS (MEM_ADDR_BITS : Int)).2 = args.drop 16 := by
    rw [_split_args_fixed_snd (by norm_num [MEM_ADDR_BITS])]
    rw [hlen]
    norm_num [MEM_ADDR_BITS]
  refine ⟨?_, ?_⟩
  · unfold add_reg_mem
    have h1 : _to_register (_split_args args REGISTER_BITS (MEM_ADDR_BITS : Int)).1 =
        .ok Reg.AC := by
      rw [_split_args_fst, hreg]
      rfl
    rw [h1]
    dsimp only
    rw [hsplit2, haddr, Memory.load_of_lt hblocks]
    dsimp only
    rw [hm0, hAC]
    exact CPU.store_of_le (v := .d (3 + 5)) (by decide)
  · rw [updateReg_same]
    exact bitsToNat_natToBits 8

/-- Witness for C8 at a concrete state and operand field. -/
theorem C8_add_reg_mem_witness :
    add_reg_mem exC8 (List.replicate 26 false) =
      .ok { exC8 with regs := updateReg exC8.regs Reg.AC (natToBits 8) } ∧
    bitsToNat (updateReg exC8.regs Reg.AC (natToBits 8) Reg.AC) = 8 :=
  C8_add_reg_mem exC8 (List.replicate 26 false) (by norm_num [exC8]) (by decide)
    (by decide) (by decide) (by decide) (by decide)

/-! ### Claim C1: the multi-word continuation protocol -/

/-- Claim C1 amended: with a reserved-opcode word in IR and a valid word at
the next address, `execute_current_instruction` performs exactly one
additional fetch (PC advances by 1 here, hence by 2 over the whole step
including the initial fetch) and dispatches on the second word's opcode with
operand field equal to the first word's operand bits followed by the second
word's operand bits stripped up to its first 1 bit when one exists; when the
second word's operand field has no 1 bit, all bits except its last are
removed, so a single 0 bit is appended (`contStrip`). -/
theorem C1_continuation (s : MachineState) (args1 w2 : List Bool)
    (hIR : s.regs Reg.IR = List.replicate 6 true ++ args1)
    (hlen : args1.length = 26)
    (hblocks : s.mem.blocks = 8)
    (hpc : bitsToNat (s.regs Reg.PC) < 8)
    (hcell : s.mem.cells (bitsToNat (s.regs Reg.PC)) = w2)
    (hw2 : w2.length = 32)
    (hnr : w2.take OPCODE_BITS ≠ List.replicate 6 true) :
    execute_current_instruction s =
      dispatchOp (bitsToNat (w2.take OPCODE_BITS))
        { s with regs := (updateReg (updateReg s.regs Reg.IR w2) Reg.PC
            (natToBits (bitsToNat (s.regs Reg.PC) + 1))) }
        (args1 ++ contStrip (w2.drop OPCODE_BITS)) ∧
    bitsToNat (updateReg (updateReg s.regs Reg.IR w2) Reg.PC
        (natToBits (bitsToNat (s.regs Reg.PC) + 1)) Reg.PC) =
      bitsToNat (s.regs Reg.PC) + 1 := by
  have hfetch : load_next_instruction s = .ok { s with
      regs := (updateReg (updateReg s.regs Reg.IR (s.mem.cells (bitsToNat (s.regs Reg.PC))))
        Reg.PC (natToBits (bitsToNat (s.regs Reg.PC) + 1))) } := by
    apply load_next_instruction_of
    · rw [hblocks]
      exact hpc
    · rw [hcell, hw2]
      norm_num [WORD_SIZE]
    · apply natToBits_length_le
      · have : bitsToNat (s.regs Reg.PC) + 1 < 2 ^ WORD_SIZE := by
          norm_num [WORD_SIZE]
          omega
        exact this
      · norm_num [WORD_SIZE]
  rw [hcell] at hfetch
  have ha1 : analyze_instruction s = .ok (63, args1) := by
    unfold analyze_instruction
    rw [hIR]
    rw [if_neg (by simp [hlen, WORD_SIZE])]
    have ht : (List.replicate 6 true ++ args1).take OPCODE_BITS = List.replicate 6 true :=
      List.take_left' (by simp [OPCODE_BITS])
    have hd : (List.replicate 6 true ++ args1).drop OPCODE_BITS = args1 :=
      List.drop_left' (by simp [OPCODE_BITS])
    rw [ht, hd]
    have h63 : bitsToNat (List.replicate 6 true) = 63 := by decide
    rw [h63]
  have hIR2 : ({ s with
      regs := (updateReg (updateReg s.regs Reg.IR w2)
        Reg.PC (natToBits (bitsToNat (s.regs Reg.PC) + 1))) } : MachineState).regs Reg.IR
      = w2 := by
    dsimp only
    rw [updateReg_other _ _ (by decide), updateReg_same]
  have ha2 : analyze_instruction { s with
      regs := (updateReg (updateReg s.regs Reg.IR w2)
        Reg.PC (natToBits (bitsToNat (s.regs Reg.PC) + 1))) } =
      .ok (bitsToNat (w2.take OPCODE_BITS), w2.drop OPCODE_BITS) := by
    unfold analyze_instruction
    rw [hIR2, if_neg (by simp [hw2, WORD_SIZE])]
  refine ⟨?_, ?_⟩
  · unfold execute_current_instruction
    rw [ha1]
    dsimp only
    rw [if_pos rfl, hfetch]
    dsimp only
    rw [ha2]
  · rw [updateReg_same]
    exact bitsToNat_natToBits _

/-- Claim C1 as stated is false at `ex1`: the continuation word's operand
field is all zeros, the code appends a single 0 bit (giving AC = 2 after the
dispatched move), while the claimed leading-zero stripping (which removes
nothing when no 1 bit exists) would give AC = 2 ^ 26. -/
theorem C1_counterexample :
    (execute_current_instruction ex1).map (fun t => bitsToNat (t.regs Reg.AC)) = .ok 2 ∧
    (spec_execute_current_instruction ex1).map (fun t => bitsToNat (t.regs Reg.AC)) =
      .ok 67108864 ∧
    (2 : Nat) ≠ 67108864 :=
  ⟨rfl, rfl, by omega⟩

/-- Witness for the amended C1 at the concrete state `ex1`. -/
theorem C1_continuation_witness :
    execute_current_instruction ex1 =
      dispatchOp (bitsToNat (ex1w2.take OPCODE_BITS))
        { ex1 with regs := (updateReg (updateReg ex1.regs Reg.IR ex1w2) Reg.PC
            (natToBits (bitsToNat (ex1.regs Reg.PC) + 1))) }
        (ex1args1 ++ contStrip (ex1w2.drop OPCODE_BITS)) ∧
    bitsToNat (updateReg (updateReg ex1.regs Reg.IR ex1w2) Reg.PC
        (natToBits (bitsToNat (ex1.regs Reg.PC) + 1)) Reg.PC) =
      bitsToNat (ex1.regs Reg.PC) + 1 :=
  C1_continuation ex1 ex1args1 ex1w2 rfl (by decide) rfl (by decide) rfl (by decide)
    (by decide)

/-! ### Claim C10: exact add arithmetic with overflow rejection -/

/-- Claim C10: every add instruction computes the exact unbounded sum; when
the sum's binary encoding exceeds `W` bits the operation fails with
ValueTooLong (the destination is untouched, matching the raise that precedes
the assignment), otherwise the destination receives exactly the sum — no
wraparound modulo `2 ^ W` ever occurs. -/
theorem C10_exact_add :
    (∀ (s : MachineState) (args : List Bool) (r : Reg) (sum : Nat),
      _to_register (args.take REGISTER_BITS) = .ok r →
      sum = bitsToNat (s.regs r) + bitsToNat ((_split_args args REGISTER_BITS).2) →
      (WORD_SIZE < (natToBits sum).length →
        add_reg_const s args = .error .valueTooLong) ∧
      ((natToBits sum).length ≤ WORD_SIZE →
        add_reg_const s args = .ok { s with regs := updateReg s.regs r (natToBits sum) } ∧
        bitsToNat (natToBits sum) = sum)) ∧
    (∀ (s : MachineState) (args : List Bool) (r : Reg) (a sum : Nat),
      _to_register (args.take REGISTER_BITS) = .ok r →
      a = bitsToNat ((_split_args args REGISTER_BITS (MEM_ADDR_BITS : Int)).2) →
      a < s.mem.blocks →
      sum = bitsToNat (s.mem.cells a) + bitsToNat (s.regs r) →
      (WORD_SIZE < (natToBits sum).length →
        add_reg_mem s args = .error .valueTooLong) ∧
      ((natToBits sum).length ≤ WORD_SIZE →
        add_reg_mem s args = .ok { s with regs := updateReg s.regs r (natToBits sum) } ∧
        bitsToNat (natToBits sum) = sum)) ∧
    (∀ (s : MachineState) (args : List Bool) (r : Reg) (a sum : Nat),
      _to_register ((_split_args args MEM_ADDR_BITS (REGISTER_BITS : Int)).2) = .ok r →
      a = bitsToNat ((_split_args args MEM_ADDR_BITS (REGISTER_BITS : Int)).1) →
      a < s.mem.blocks →
      sum = bitsToNat (s.mem.cells a) + bitsToNat (s.regs r) →
      (WORD_SIZE < (natToBits sum).length →
        add_mem_reg s args = .error .valueTooLong) ∧
      ((natToBits sum).length ≤ WORD_SIZE →
        add_mem_reg s args = .ok { s with
          mem := { blocks := s.mem.blocks,
                   cells := updateCell s.mem.cells a (natToBits sum) } } ∧
        bitsToNat (updateCell s.mem.cells a (natToBits sum) a) = sum)) := by
  refine ⟨?_, ?_, ?_⟩
  · intro s args r sum hr hsum
    have hr2 : _to_register (_split_args args REGISTER_BITS).1 = .ok r := hr
    constructor
    · intro hover
      unfold add_reg_const
      rw [hr2]
      dsimp only
      unfold CPU.store
      rw [← hsum]
      rw [if_pos (by simp only [binEncode]; omega)]
    · intro hunder
      unfold add_reg_const
      rw [hr2]
      dsimp only
      rw [← hsum]
      exact ⟨CPU.store_of_le (v := .d sum) (by simp only [binEncode]; omega),
        bitsToNat_natToBits sum⟩
  · intro s args r a sum hr ha hlt hsum
    have hr2 : _to_register (_split_args args REGISTER_BITS (MEM_ADDR_BITS : Int)).1 =
        .ok r := hr
    constructor
    · intro hover
      unfold add_reg_mem
      rw [hr2]
      dsimp only
      rw [← ha, Memory.load_of_lt hlt]
      dsimp only
      unfold CPU.store
      rw [← hsum]
      rw [if_pos (by simp only [binEncode]; omega)]
    · intro hunder
      unfold add_reg_mem
      rw [hr2]
      dsimp only
      rw [← ha, Memory.load_of_lt hlt]
      dsimp only
      rw [← hsum]
      exact ⟨CPU.store_of_le (v := .d sum) (by simp only [binEncode]; omega),
        bitsToNat_natToBits sum⟩
  · intro s args r a sum hr ha hlt hsum
    constructor
    · intro hover
      unfold add_mem_reg
      rw [hr]
      dsimp only
      rw [← ha, Memory.load_of_lt hlt]
      dsimp only
      rw [← hsum]
      unfold store_in_memory Memory.store
      rw [if_pos hlt, if_pos (by simp only [binEncode]; omega)]
    · intro hunder
      unfold add_mem_reg
      rw [hr]
      dsimp only
      rw [← ha, Memory.load_of_lt hlt]
      dsimp only
      rw [← hsum]
      unfold store_in_memory Memory.store
      rw [if_pos hlt, if_neg (by simp only [binEncode]; omega)]
      exact ⟨rfl, by rw [updateCell_same]; exact bitsToNat_natToBits sum⟩

/-- Witness for C10: an overflowing add-register-constant (AC = 2 ^ 32 - 1
plus constant 1) fails with ValueTooLong, and a small add-register-constant
(0 + 42 into AC) stores the exact sum. -/
theorem C10_exact_add_witness :
    add_reg_const exC10 exC10args = .error .valueTooLong ∧
    add_reg_const initMachine exC7args =
      .ok { initMachine with regs := updateReg initMachine.regs Reg.AC (natToBits 42) } := by
  constructor
  · refine (C10_exact_add.1 exC10 exC10args Reg.AC 4294967296 rfl (by decide)).1 ?_
    have h := natToBits_length_lower (n := 4294967296) (k := 32) (by norm_num)
    norm_num [WORD_SIZE]
    omega
  · exact ((C10_exact_add.1 initMachine exC7args Reg.AC 42 rfl (by decide)).2 (by decide)).1

/-- Witness for the amended C2 at opcode 5 and at the reserved opcode. -/
theorem C2_table_witness :
    (instruction_set 5).isSome = true ∧ instruction_set 63 = none :=
  ⟨(C2_table 5).1.mpr (by omega), (C2_table 5).2⟩
